import Mathlib

/-!
Verification of the execution-history aggregation pipeline, the dashboard
metrics engine, the history store append operation, and the polling
count-stabilization waiter of the playwright-automation-framework
repository.

Shallow embedding conventions:
* JavaScript numbers that can be `NaN` are modelled as `Option Int`
  (`none` = `NaN`); `NaN` propagation through `+`, `Math.min`, `Math.max`
  is made explicit.
* A record's `timestamp` field holds the value of
  `new Date(r.timestamp).getTime()` (epoch milliseconds), `none` when the
  ISO string does not parse.
* Fields that JavaScript tests for falsiness (`runId`, `browser`,
  `executionMode` via `x || default`) are `Option`-valued or compared
  against the empty string, mirroring the source.
* `Math.round x` is `floor (x + 1/2)`, which is exactly the JavaScript
  semantics for finite arguments.
-/

/-- Test status values of the data model (`TestStatus`). -/
inductive TestStatus where
  | passed
  | failed
  | timedOut
  | skipped
  | interrupted
deriving DecidableEq

/-- Browser identifiers (`BrowserType`). -/
inductive BrowserType where
  | chromium
  | firefox
  | webkit
deriving DecidableEq

/-- One test execution record (`TestExecutionRecord`), restricted to the
fields read by the aggregation and metrics code. `timestamp` is the parsed
epoch-milliseconds value (`none` = the string parses to `NaN`); `runId`
and `browser` are `none` when absent or empty (JS falsy). -/
structure TestExecutionRecord where
  runId : Option String
  timestamp : Option Int
  status : TestStatus
  duration : Int
  browser : Option BrowserType
  executionMode : String
deriving DecidableEq

/-- Execution mode classification stored on a run group. -/
inductive ExecMode where
  | parallel
  | sequential
  | unknown
deriving DecidableEq

/-- A grouped run (`RunGroup` in generate-report.ts). `wallClockTime` is
`Option Int` because the computation can produce `NaN`. -/
structure RunGroup where
  id : String
  timestamp : Option Int
  results : List TestExecutionRecord
  passed : Nat
  failed : Nat
  duration : Int
  wallClockTime : Option Int
  browsers : List BrowserType
  executionMode : ExecMode
deriving DecidableEq

/-- JavaScript `Math.round` for finite arguments: `floor (x + 1/2)`. Used
in theorem statements to express the rounded exact quotients. -/
def jsRound (q : ℚ) : ℤ := ⌊q + 1/2⌋

/-- `Math.round (a / b)` computed on integers: for `0 < b`,
`floor (a/b + 1/2) = floor ((2a+b) / (2b))`, so floor division does it.
The pipeline only ever divides by a positive count, where this equals
`jsRound ((a : ℚ) / b)` (lemma `jsRoundDiv_eq`). -/
def jsRoundDiv (a b : Int) : Int := (2 * a + b).fdiv (2 * b)

/-- Whether `pat` occurs at the start of `s` (character lists). -/
def charsStartWith : List Char → List Char → Bool
  | [], _ => true
  | _ :: _, [] => false
  | p :: ps, c :: cs => p = c && charsStartWith ps cs

/-- Whether `pat` occurs anywhere inside `s` (character lists). -/
def charsContain (s pat : List Char) : Bool :=
  match s with
  | [] => pat.isEmpty
  | _ :: cs => charsStartWith pat s || charsContain cs pat

/-- `String.prototype.includes`: substring containment. -/
def jsIncludes (s pat : String) : Bool := charsContain s.toList pat.toList

/-- The grouping key `run.runId || 'LEGACY-RUN'` (generate-report.ts line 248). -/
def groupKey (r : TestExecutionRecord) : String := r.runId.getD "LEGACY-RUN"

/-- The group seeded for key `rId` before the first record is pushed
(generate-report.ts lines 250-260). -/
def newGroup (rId : String) (r : TestExecutionRecord) : RunGroup :=
  { id := rId
    timestamp := r.timestamp
    results := []
    passed := 0
    failed := 0
    duration := 0
    wallClockTime := some 0
    browsers := []
    executionMode := .unknown }

/-- Accumulating one record into its group (generate-report.ts lines 262-268):
push onto `results`, bump the coarse passed/failed split (`skipped` counts as
failed here), add the duration, record an unseen browser. -/
def accRecord (g : RunGroup) (r : TestExecutionRecord) : RunGroup :=
  { g with
    results := g.results ++ [r]
    passed := if r.status = .passed then g.passed + 1 else g.passed
    failed := if r.status = .passed then g.failed else g.failed + 1
    duration := g.duration + r.duration
    browsers :=
      match r.browser with
      | some b => if g.browsers.contains b then g.browsers else g.browsers ++ [b]
      | none => g.browsers }

/-- One step of `history.reduce` (generate-report.ts lines 247-270): insert a
record into the association list of groups. JS object keys keep insertion
order, which the list order models. -/
def insertRecord : List (String × RunGroup) → TestExecutionRecord → List (String × RunGroup)
  | [], r => [(groupKey r, accRecord (newGroup (groupKey r) r) r)]
  | (k, g) :: rest, r =>
    if k = groupKey r then (k, accRecord g r) :: rest
    else (k, g) :: insertRecord rest r

/-- `history.reduce(...)` building the runId-to-RunGroup mapping. -/
def groupRuns (history : List TestExecutionRecord) : List (String × RunGroup) :=
  history.foldl insertRecord []

/-- Property access `runs[k]` on the grouped mapping. -/
def findGroup : List (String × RunGroup) → String → Option RunGroup
  | [], _ => none
  | (k, g) :: rest, key => if k = key then some g else findGroup rest key

/-- The `results` of the group stored at key `k`, `[]` when there is none. -/
def resultsAt (acc : List (String × RunGroup)) (k : String) : List TestExecutionRecord :=
  match findGroup acc k with
  | some g => g.results
  | none => []

/-- Binary `Math.min` on possibly-`NaN` values: `NaN` wins. -/
def optMin2 : Option Int → Option Int → Option Int
  | some a, some b => some (min a b)
  | _, _ => none

/-- Binary `Math.max` on possibly-`NaN` values: `NaN` wins. -/
def optMax2 : Option Int → Option Int → Option Int
  | some a, some b => some (max a b)
  | _, _ => none

/-- `Math.min(...xs)` over possibly-`NaN` values. The call site guarantees
a nonempty list; `[]` yields `none` here (unreachable). -/
def jsMinList : List (Option Int) → Option Int
  | [] => none
  | [x] => x
  | x :: xs => optMin2 x (jsMinList xs)

/-- `Math.max(...xs)` over possibly-`NaN` values: `NaN` wins. -/
def jsMaxList : List (Option Int) → Option Int
  | [] => none
  | [x] => x
  | x :: xs => optMax2 x (jsMaxList xs)

/-- `new Date(r.timestamp).getTime()` (generate-report.ts line 275). -/
def startMs (r : TestExecutionRecord) : Option Int := r.timestamp

/-- `new Date(r.timestamp).getTime() + r.duration` (line 278). -/
def endMs (r : TestExecutionRecord) : Option Int := r.timestamp.map (· + r.duration)

/-- Execution-mode classification (generate-report.ts lines 284-290 and
164-173): contains "parallel", or equals "test" or "npx", gives parallel;
else contains "sequential" gives sequential; else parallel. -/
def classify (mode : String) : ExecMode :=
  if jsIncludes mode "parallel" || mode = "test" || mode = "npx" then .parallel
  else if jsIncludes mode "sequential" then .sequential
  else .parallel

/-- `run.results[0]?.executionMode || 'unknown'` (lines 165 and 283):
missing first record or an empty tag both fall back to "unknown". -/
def firstMode (results : List TestExecutionRecord) : String :=
  match results with
  | [] => "unknown"
  | r :: _ => if r.executionMode = "" then "unknown" else r.executionMode

/-- Second pass over one group (generate-report.ts lines 273-292):
wall-clock time as `max(endMs) - min(startMs)` and execution mode from the
first record, guarded by `results.length > 0`. -/
def finalizeGroup (g : RunGroup) : RunGroup :=
  if 0 < g.results.length then
    { g with
      wallClockTime :=
        match jsMaxList (g.results.map endMs), jsMinList (g.results.map startMs) with
        | some e, some s => some (e - s)
        | _, _ => none
      executionMode := classify (firstMode g.results) }
  else g

/-- The full aggregation pass: grouping fold followed by the per-group
wall-clock/mode pass. -/
def aggregate (history : List TestExecutionRecord) : List (String × RunGroup) :=
  (groupRuns history).map (fun p => (p.1, finalizeGroup p.2))

/-- Aggregated per-browser statistics accumulator (generate-report.ts
lines 101-105). -/
structure BrowserAcc where
  passed : Nat
  failed : Nat
  totalDuration : Int
  count : Nat
deriving DecidableEq

/-- The three fixed buckets of `calculateBrowserStats`. -/
structure BrowserTally where
  chromium : BrowserAcc
  firefox : BrowserAcc
  webkit : BrowserAcc
deriving DecidableEq

/-- All-zero accumulator. -/
def initBrowserAcc : BrowserAcc := { passed := 0, failed := 0, totalDuration := 0, count := 0 }

/-- Initial tally of `calculateBrowserStats`. -/
def initBrowserTally : BrowserTally :=
  { chromium := initBrowserAcc, firefox := initBrowserAcc, webkit := initBrowserAcc }

/-- `record.browser || 'chromium'` (generate-report.ts line 108). -/
def browserKey (r : TestExecutionRecord) : BrowserType := r.browser.getD .chromium

/-- The per-record bucket update (lines 109-115). -/
def bumpAcc (a : BrowserAcc) (r : TestExecutionRecord) : BrowserAcc :=
  { passed := if r.status = .passed then a.passed + 1 else a.passed
    failed := if r.status = .passed then a.failed else a.failed + 1
    totalDuration := a.totalDuration + r.duration
    count := a.count + 1 }

/-- One loop iteration of `calculateBrowserStats` (lines 107-116). -/
def tallyRecord (t : BrowserTally) (r : TestExecutionRecord) : BrowserTally :=
  match browserKey r with
  | .chromium => { t with chromium := bumpAcc t.chromium r }
  | .firefox => { t with firefox := bumpAcc t.firefox r }
  | .webkit => { t with webkit := bumpAcc t.webkit r }

/-- Bucket lookup `stats[browser]`. -/
def bucketOf (t : BrowserTally) : BrowserType → BrowserAcc
  | .chromium => t.chromium
  | .firefox => t.firefox
  | .webkit => t.webkit

/-- Emitted per-browser statistics (`BrowserStats`). -/
structure BrowserStats where
  browser : BrowserType
  passed : Nat
  failed : Nat
  total : Nat
  avgDuration : Int
  stability : Int
deriving DecidableEq

/-- The mapping step of lines 120-127. -/
def finalizeBrowser (b : BrowserType) (s : BrowserAcc) : BrowserStats :=
  { browser := b
    passed := s.passed
    failed := s.failed
    total := s.count
    avgDuration := jsRoundDiv s.totalDuration (s.count : Int)
    stability := if 0 < s.count then jsRoundDiv (100 * (s.passed : Int)) (s.count : Int) else 0 }

/-- `calculateBrowserStats` (generate-report.ts lines 100-128):
tally the window, keep `Object.entries` order chromium, firefox, webkit,
drop empty buckets, emit rounded averages. -/
def calculateBrowserStats (records : List TestExecutionRecord) : List BrowserStats :=
  let t := records.foldl tallyRecord initBrowserTally
  ((([BrowserType.chromium, .firefox, .webkit].map (fun b => (b, bucketOf t b))).filter
    (fun p => 0 < p.2.count)).map (fun p => finalizeBrowser p.1 p.2))

/-- Per-execution-mode metrics (`ExecutionModeMetrics`); `avgRunTime` is
`Option Int` because a `NaN` wall-clock time propagates into it. -/
structure ExecutionModeMetrics where
  mode : String
  totalRuns : Nat
  totalTests : Nat
  avgDuration : Int
  avgRunTime : Option Int
  passRate : Int
  passed : Nat
  failed : Nat
  skipped : Nat
deriving DecidableEq

/-- `NaN`-propagating addition of JS numbers. -/
def optAdd : Option Int → Option Int → Option Int
  | some a, some b => some (a + b)
  | _, _ => none

/-- Accumulator of `calcMetrics` (generate-report.ts lines 181-186). -/
structure ModeAcc where
  totalDuration : Int
  totalTests : Nat
  passed : Nat
  failed : Nat
  skipped : Nat
  totalWallClockTime : Option Int
deriving DecidableEq

/-- All-zero accumulator of `calcMetrics`. -/
def initModeAcc : ModeAcc :=
  { totalDuration := 0, totalTests := 0, passed := 0, failed := 0, skipped := 0,
    totalWallClockTime := some 0 }

/-- Inner loop body of `calcMetrics` (lines 191-197): three-way
passed/skipped/failed split. -/
def tallyResult (a : ModeAcc) (r : TestExecutionRecord) : ModeAcc :=
  { a with
    totalTests := a.totalTests + 1
    totalDuration := a.totalDuration + r.duration
    passed := if r.status = .passed then a.passed + 1 else a.passed
    skipped :=
      if r.status = .passed then a.skipped
      else if r.status = .skipped then a.skipped + 1 else a.skipped
    failed :=
      if r.status = .passed then a.failed
      else if r.status = .skipped then a.failed else a.failed + 1 }

/-- Outer loop body of `calcMetrics` (lines 188-198): add the group's
wall-clock time, then tally every result. -/
def tallyRun (a : ModeAcc) (g : RunGroup) : ModeAcc :=
  g.results.foldl tallyResult
    { a with totalWallClockTime := optAdd a.totalWallClockTime g.wallClockTime }

/-- `calcMetrics` (generate-report.ts lines 176-211). -/
def calcMetrics (runList : List RunGroup) (mode : String) : ExecutionModeMetrics :=
  if runList.length = 0 then
    { mode := mode, totalRuns := 0, totalTests := 0, avgDuration := 0, avgRunTime := some 0,
      passRate := 0, passed := 0, failed := 0, skipped := 0 }
  else
    let a := runList.foldl tallyRun initModeAcc
    { mode := mode
      totalRuns := runList.length
      totalTests := a.totalTests
      avgDuration :=
        if 0 < a.totalTests then jsRoundDiv a.totalDuration (a.totalTests : Int) else 0
      avgRunTime :=
        if 0 < runList.length then
          a.totalWallClockTime.map (fun w => jsRoundDiv w (runList.length : Int))
        else some 0
      passRate :=
        if 0 < a.totalTests then jsRoundDiv (100 * (a.passed : Int)) (a.totalTests : Int) else 0
      passed := a.passed
      failed := a.failed
      skipped := a.skipped }

/-- The partition loop of `calculateExecutionModeMetrics` (lines 164-174):
groups are re-classified from their first result's tag; the unknown case
defaults to the parallel partition. -/
def partitionModes (runs : List RunGroup) : List RunGroup × List RunGroup :=
  runs.foldl
    (fun acc run =>
      match classify (firstMode run.results) with
      | .sequential => (acc.1, acc.2 ++ [run])
      | _ => (acc.1 ++ [run], acc.2))
    ([], [])

/-- `calculateExecutionModeMetrics` (lines 160-217): first component is the
parallel partition's metrics, second the sequential partition's. -/
def calculateExecutionModeMetrics (runs : List RunGroup) :
    ExecutionModeMetrics × ExecutionModeMetrics :=
  (calcMetrics (partitionModes runs).1 "Parallel",
   calcMetrics (partitionModes runs).2 "Sequential")

/-- The rendered performance-gain value (generate-report.ts lines 576-578):
a ratio formatted with one decimal, or the dash placeholder. -/
inductive SpeedupDisplay where
  | ratio (q : ℚ)
  | placeholder
deriving DecidableEq

/-- JS comparison `x > 0` where `x` may be `NaN` (`NaN > 0` is false). -/
def optPos : Option Int → Bool
  | some x => decide (0 < x)
  | none => false

/-- The speedup expression of lines 576-578:
`parallel.avgRunTime > 0 && sequential.avgRunTime > 0` guards the division
`sequential.avgRunTime / parallel.avgRunTime`; otherwise the dash. -/
def speedupValue (em : ExecutionModeMetrics × ExecutionModeMetrics) : SpeedupDisplay :=
  if optPos em.1.avgRunTime && optPos em.2.avgRunTime then
    .ratio (((em.2.avgRunTime.getD 0 : Int) : ℚ) / ((em.1.avgRunTime.getD 0 : Int) : ℚ))
  else .placeholder

/-- `history.slice(-100)` (line 297): the trailing window of at most 100
records in append order. -/
def recentWindow (history : List TestExecutionRecord) : List TestExecutionRecord :=
  history.drop (history.length - 100)

/-- The observable state of the history file when `generateReport` runs. -/
inductive HistoryFile where
  | missing
  | unparseable
  | parsed (records : List TestExecutionRecord)
deriving DecidableEq

/-- Outcome of `generateReport`. Only the `written` constructor corresponds
to `fs.writeFileSync(REPORT_FILE, html)` being reached (line 1013); the
other two return beforehand and produce no output file. -/
inductive ReportOutcome where
  | warnNoHistory
  | parseErrorNoOutput
  | written (groups : List (String × RunGroup))
      (metrics : ExecutionModeMetrics × ExecutionModeMetrics)
      (browser : List BrowserStats)
deriving DecidableEq

/-- Control flow of `generateReport` (generate-report.ts lines 231-244,
294-309, 1013): missing file warns and returns; a parse failure logs and
returns; otherwise the aggregation runs and the dashboard is written. -/
def generateReport (file : HistoryFile) : ReportOutcome :=
  match file with
  | .missing => .warnNoHistory
  | .unparseable => .parseErrorNoOutput
  | .parsed history =>
    .written (aggregate history)
      (calculateExecutionModeMetrics ((aggregate history).map (fun p => p.2)))
      (calculateBrowserStats (recentWindow history))

/-- The observable state of the history file when `appendToHistory` runs:
absent, present but unreadable/unparseable, or parsed content. -/
inductive StoreRead where
  | absent
  | unreadable
  | readable (records : List TestExecutionRecord)
deriving DecidableEq

/-- `CustomReporter.appendToHistory` (CustomReporter.ts lines 218-237),
returning the array written back to the file: a missing file and a failed
read/parse both leave `history = []` (the catch only logs), then the new
record is pushed and the whole array written. -/
def appendToHistory (store : StoreRead) (record : TestExecutionRecord) :
    List TestExecutionRecord :=
  match store with
  | .absent => [record]
  | .unreadable => [record]
  | .readable history => history ++ [record]

/-- Result of the polling count-stabilization waiter: `stable n` models the
in-loop return of `currentCount` after a quiet period, `timedOutLast n` the
fall-through `return lastCount` after the cumulative wait exceeded the
timeout (WaitHelpers.ts lines 115-116). -/
inductive CountResult where
  | stable (n : Nat)
  | timedOutLast (n : Nat)
deriving DecidableEq

/-- Loop of `WaitHelpers.waitForStableCount` (WaitHelpers.ts lines 98-116)
under the idealized timing model: `counts t` is the element count a
`locator.count()` issued at `t` ms observes, each iteration advances the
clock by exactly `pollInterval` and everything else is instantaneous.
`fuel` bounds the iteration count; the entry point passes `timeout + 1`,
which is enough for every positive `pollInterval` because the clock grows
by at least 1 per iteration while the loop runs. -/
def stableCountGo (counts : Nat → Nat) (timeout threshold poll : Nat) :
    Nat → Nat → Nat → Nat → CountResult
  | 0, _, lastCount, _ => .timedOutLast lastCount
  | fuel + 1, now, lastCount, stableStart =>
    if now < timeout then
      let current := counts (now + poll)
      if current ≠ lastCount then
        stableCountGo counts timeout threshold poll fuel (now + poll) current (now + poll)
      else if threshold ≤ now + poll - stableStart then .stable current
      else stableCountGo counts timeout threshold poll fuel (now + poll) lastCount stableStart
    else .timedOutLast lastCount

/-- `WaitHelpers.waitForStableCount` (WaitHelpers.ts lines 88-117):
`startTime = 0`, `lastCount = counts 0`, `stableStart = 0`, then the
polling loop. -/
def waitForStableCount (counts : Nat → Nat) (timeout threshold poll : Nat) : CountResult :=
  stableCountGo counts timeout threshold poll (timeout + 1) 0 (counts 0) 0

/-- Outcome of the contract the spec claims for the variant: resolve with a
count, or reject with a timeout error. -/
inductive SpecWaitOutcome where
  | ok (n : Nat)
  | error (msg : String)
deriving DecidableEq

/-- Modelled from the spec: the contract claimed for the variant — the same
contract as the mutation-observer waiter — which "fails with a timeout
error if the cumulative wait exceeds `timeout` without ever reaching a
quiet period". Identical observation grid, but the timeout exits reject. -/
def stableCountSpecGo (counts : Nat → Nat) (timeout threshold poll : Nat) :
    Nat → Nat → Nat → Nat → SpecWaitOutcome
  | 0, _, _, _ => .error "timeout"
  | fuel + 1, now, lastCount, stableStart =>
    if now < timeout then
      let current := counts (now + poll)
      if current ≠ lastCount then
        stableCountSpecGo counts timeout threshold poll fuel (now + poll) current (now + poll)
      else if threshold ≤ now + poll - stableStart then .ok current
      else stableCountSpecGo counts timeout threshold poll fuel (now + poll) lastCount stableStart
    else .error "timeout"

/-- Modelled from the spec: entry point of the claimed contract. -/
def waitForStableCountSpec (counts : Nat → Nat) (timeout threshold poll : Nat) :
    SpecWaitOutcome :=
  stableCountSpecGo counts timeout threshold poll (timeout + 1) 0 (counts 0) 0

/-- Default wait options (generics.ts `DEFAULT_WAIT_OPTIONS`). -/
def defaultTimeout : Nat := 5000

/-- Default stability threshold (generics.ts). -/
def defaultStabilityThreshold : Nat := 100

/-- Default poll interval (generics.ts). -/
def defaultPollInterval : Nat := 50

/-- An element count that changes at every poll of a 50 ms grid. -/
def altCounts (t : Nat) : Nat := t / 50 % 2

/-- An element count with one change at 30 ms and silence afterwards (the
shape of the spec's end-to-end scenario C, seen on a 50 ms poll grid). -/
def oneChangeCounts (t : Nat) : Nat := if t < 30 then 0 else 1

/-- A record with a missing/empty browser field replaced by the chromium
fallback the stats code applies. -/
def normalizeBrowser (r : TestExecutionRecord) : TestExecutionRecord :=
  { r with browser := some (browserKey r) }

/-- All records of a list of run groups, in iteration order of the nested
forEach loops of calcMetrics. -/
def allResults (runList : List RunGroup) : List TestExecutionRecord :=
  (runList.map RunGroup.results).flatten

/-- Example record: passed chromium test of run RUN-1 started at 0 ms. -/
def exRecA : TestExecutionRecord :=
  { runId := some "RUN-1", timestamp := some 0, status := .passed, duration := 100,
    browser := some .chromium, executionMode := "parallel-tests" }

/-- Example record: passed firefox test of run RUN-1 started at 1000 ms. -/
def exRecB : TestExecutionRecord :=
  { runId := some "RUN-1", timestamp := some 1000, status := .passed, duration := 150,
    browser := some .firefox, executionMode := "parallel-tests" }

/-- Example record: failed chromium test of run RUN-1 started at 2000 ms. -/
def exRecC : TestExecutionRecord :=
  { runId := some "RUN-1", timestamp := some 2000, status := .failed, duration := 200,
    browser := some .chromium, executionMode := "parallel-tests" }

/-- Example legacy record: no runId, empty executionMode tag, no browser. -/
def exRecD : TestExecutionRecord :=
  { runId := none, timestamp := some 500, status := .skipped, duration := 50,
    browser := none, executionMode := "" }

/-- Example history mixing one real run with a legacy record. -/
def exHistory : List TestExecutionRecord := [exRecA, exRecB, exRecC, exRecD]

/-- Example window: 8 passed and 2 failed chromium records. -/
def exWindow : List TestExecutionRecord :=
  List.replicate 8 exRecA ++
    [{ exRecC with duration := 350 }, { exRecC with duration := 250 }]

/-- The group the aggregation pass produces for RUN-1 of `exHistory`. -/
def exGroup : RunGroup :=
  (findGroup (aggregate exHistory) "RUN-1").getD (newGroup "RUN-1" exRecA)

/-- The group the grouping fold (before the wall-clock pass) produces for
RUN-1 of `exHistory`. -/
def exGroupRaw : RunGroup :=
  (findGroup (groupRuns exHistory) "RUN-1").getD (newGroup "RUN-1" exRecA)

/-- The browser statistics entry produced for `exWindow`. -/
def exStats : BrowserStats :=
  { browser := .chromium, passed := 8, failed := 2, total := 10,
    avgDuration := 140, stability := 80 }

theorem jsRoundDiv_eq (a : ℤ) (b : ℕ) (hb : 0 < b) :
    jsRoundDiv a (b : ℤ) = jsRound ((a : ℚ) / (b : ℚ)) := by
  have hb0 : ((b : ℕ) : ℚ) ≠ 0 := Nat.cast_ne_zero.mpr hb.ne'
  have h1 : (a : ℚ) / (b : ℚ) + 1 / 2 = ((2 * a + (b : ℤ) : ℤ) : ℚ) / (((2 * b : ℕ) : ℕ) : ℚ) := by
    push_cast
    field_simp
    ring
  simp only [jsRound, jsRoundDiv, h1, Rat.floor_intCast_div_natCast]
  rw [Int.fdiv_eq_ediv _ (by positivity)]
  push_cast
  rfl

/-- C8: when the history file does not exist, `generateReport` warns and
returns without writing an output file; when its contents fail to parse it
reports the error and returns without writing; in every other case it
writes the dashboard — the function is total, so no exception escapes. -/
theorem report_error_handling :
    generateReport .missing = .warnNoHistory ∧
    generateReport .unparseable = .parseErrorNoOutput ∧
    ∀ history : List TestExecutionRecord, ∃ groups metrics browser,
      generateReport (.parsed history) = .written groups metrics browser := by
  exact ⟨rfl, rfl, fun history => ⟨_, _, _, rfl⟩⟩

/-- C9: `appendToHistory` treats an unreadable or absent history file as
empty and still writes an array holding the new record; for every store
state the written array is the prior (possibly discarded) data plus the new
record, so the new record is always persisted and the operation is total
(never raises). -/
theorem append_crash_tolerant :
    ∀ (store : StoreRead) (r : TestExecutionRecord),
      appendToHistory .unreadable r = [r] ∧
      appendToHistory .absent r = [r] ∧
      (∃ pre, appendToHistory store r = pre ++ [r]) ∧
      r ∈ appendToHistory store r := by
  intro store r
  refine ⟨rfl, rfl, ?_, ?_⟩
  · cases store with
    | absent => exact ⟨[], rfl⟩
    | unreadable => exact ⟨[], rfl⟩
    | readable h => exact ⟨h, rfl⟩
  · cases store <;> simp [appendToHistory]

/-- C7: the performance-gain figure is the ratio
`sequential.avgRunTime / parallel.avgRunTime` only when both average run
times are positive; whenever either is zero the rendered value is the dash
placeholder (never a division error or Infinity), and an empty partition
yields the all-zero metrics record. -/
theorem speedup_placeholder :
    ∀ runs : List RunGroup,
      ((calculateExecutionModeMetrics runs).1.avgRunTime = some 0 ∨
          (calculateExecutionModeMetrics runs).2.avgRunTime = some 0 →
        speedupValue (calculateExecutionModeMetrics runs) = .placeholder) ∧
      (∀ q, speedupValue (calculateExecutionModeMetrics runs) = .ratio q →
        ∃ pa sq : Int,
          (calculateExecutionModeMetrics runs).1.avgRunTime = some pa ∧
          (calculateExecutionModeMetrics runs).2.avgRunTime = some sq ∧
          0 < pa ∧ 0 < sq ∧ q = (sq : ℚ) / (pa : ℚ)) ∧
      (∀ mode : String, calcMetrics [] mode =
        { mode := mode, totalRuns := 0, totalTests := 0, avgDuration := 0,
          avgRunTime := some 0, passRate := 0, passed := 0, failed := 0, skipped := 0 }) := by
  intro runs
  refine ⟨?_, ?_, fun mode => rfl⟩
  · intro h
    rcases h with h | h <;> simp [speedupValue, optPos, h]
  · intro q hq
    by_cases hc : (optPos (calculateExecutionModeMetrics runs).1.avgRunTime &&
        optPos (calculateExecutionModeMetrics runs).2.avgRunTime) = true
    · have h1 := hc
      rw [Bool.and_eq_true] at h1
      obtain ⟨hp, hs⟩ := h1
      cases hpa : (calculateExecutionModeMetrics runs).1.avgRunTime with
      | none => rw [hpa] at hp; simp [optPos] at hp
      | some pa =>
        cases hsq : (calculateExecutionModeMetrics runs).2.avgRunTime with
        | none => rw [hsq] at hs; simp [optPos] at hs
        | some sq =>
          refine ⟨pa, sq, rfl, rfl, ?_, ?_, ?_⟩
          · rw [hpa] at hp; simpa [optPos] using hp
          · rw [hsq] at hs; simpa [optPos] using hs
          · rw [speedupValue, if_pos hc, hpa, hsq] at hq
            simpa using hq.symm
    · rw [speedupValue, if_neg hc] at hq
      exact absurd hq (by simp)

/-- C7 witness: with no runs at all both partitions are empty, both average
run times are zero, and the rendered value is the placeholder. -/
theorem speedup_placeholder_witness :
    ((calculateExecutionModeMetrics []).1.avgRunTime = some 0 ∨
      (calculateExecutionModeMetrics []).2.avgRunTime = some 0) ∧
    speedupValue (calculateExecutionModeMetrics []) = .placeholder :=
  ⟨Or.inl (by decide), (speedup_placeholder []).1 (Or.inl (by decide))⟩

/-- C4: the stored execution mode of a finalized nonempty group is exactly
`classify` of the first record's tag (with the empty tag falling back to
"unknown"), this classification depends only on that tag, the six sample
tags classify as the claim lists, and the general precedence holds:
contains "parallel" or equals "test"/"npx" gives parallel, else contains
"sequential" gives sequential, else parallel. -/
theorem execution_mode_classification :
    (∀ g : RunGroup, g.results ≠ [] →
      (finalizeGroup g).executionMode = classify (firstMode g.results)) ∧
    (∀ (r₁ r₂ : TestExecutionRecord) (l₁ l₂ : List TestExecutionRecord),
      r₁.executionMode = r₂.executionMode →
      classify (firstMode (r₁ :: l₁)) = classify (firstMode (r₂ :: l₂))) ∧
    classify "parallel-tests" = .parallel ∧
    classify "sequential-run" = .sequential ∧
    classify "npx" = .parallel ∧
    classify "test" = .parallel ∧
    (∀ (r : TestExecutionRecord) (l : List TestExecutionRecord),
      r.executionMode = "" → classify (firstMode (r :: l)) = .parallel) ∧
    classify "unknown" = .parallel ∧
    (∀ mode : String,
      (jsIncludes mode "parallel" = true ∨ mode = "test" ∨ mode = "npx") →
      classify mode = .parallel) ∧
    (∀ mode : String,
      ¬(jsIncludes mode "parallel" = true ∨ mode = "test" ∨ mode = "npx") →
      jsIncludes mode "sequential" = true → classify mode = .sequential) ∧
    (∀ mode : String,
      ¬(jsIncludes mode "parallel" = true ∨ mode = "test" ∨ mode = "npx") →
      jsIncludes mode "sequential" = false → classify mode = .parallel) := by
  refine ⟨?_, ?_, by decide, by decide, by decide, by decide, ?_, by decide, ?_, ?_, ?_⟩
  · intro g hg
    have hlen : 0 < g.results.length := List.length_pos.mpr hg
    simp [finalizeGroup, hlen]
  · intro r₁ r₂ l₁ l₂ h
    simp [firstMode, h]
  · intro r l h
    simp [firstMode, h]
    decide
  · intro mode h
    rcases h with h | h | h <;> simp [classify, h]
  · intro mode h hseq
    push_neg at h
    obtain ⟨h1, h2, h3⟩ := h
    simp [classify, h1, h2, h3, hseq]
  · intro mode h hseq
    push_neg at h
    obtain ⟨h1, h2, h3⟩ := h
    simp [classify, h1, h2, h3, hseq]

/-- C4 witness: instantiating the conditional parts of the classification
theorem at concrete tags and records. -/
theorem execution_mode_classification_witness :
    (exRecD.executionMode = "" ∧ classify (firstMode [exRecD]) = .parallel) ∧
    (jsIncludes "parallel-tests" "parallel" = true ∨ ("parallel-tests" : String) = "test" ∨
        ("parallel-tests" : String) = "npx") ∧
    classify "parallel-tests" = .parallel ∧
    ({ exRecA with } : TestExecutionRecord).executionMode = exRecA.executionMode ∧
    classify (firstMode [exRecA]) = classify (firstMode [exRecA, exRecB]) := by
  refine ⟨⟨by decide, execution_mode_classification.2.2.2.2.2.2.1 exRecD [] (by decide)⟩,
    Or.inl (by decide),
    execution_mode_classification.2.2.2.2.2.2.2.2.1 "parallel-tests" (Or.inl (by decide)),
    by decide,
    execution_mode_classification.2.1 exRecA exRecA [] [exRecB] (by decide)⟩

theorem bucketOf_tallyRecord (t : BrowserTally) (r : TestExecutionRecord) (b : BrowserType) :
    bucketOf (tallyRecord t r) b =
      if browserKey r = b then bumpAcc (bucketOf t b) r else bucketOf t b := by
  cases hbk : browserKey r <;> cases b <;> simp [tallyRecord, bucketOf, hbk]

theorem bucketOf_foldl (records : List TestExecutionRecord) (b : BrowserType) :
    ∀ t : BrowserTally,
      bucketOf (records.foldl tallyRecord t) b =
        { passed := (bucketOf t b).passed +
            records.countP (fun r => decide (browserKey r = b ∧ r.status = .passed)),
          failed := (bucketOf t b).failed +
            records.countP (fun r => decide (browserKey r = b ∧ ¬ r.status = .passed)),
          totalDuration := (bucketOf t b).totalDuration +
            ((records.filter (fun r => decide (browserKey r = b))).map
              TestExecutionRecord.duration).sum,
          count := (bucketOf t b).count +
            records.countP (fun r => decide (browserKey r = b)) } := by
  induction records with
  | nil =>
    intro t
    simp only [List.foldl_nil, List.countP_nil, List.filter_nil, List.map_nil,
      List.sum_nil, add_zero]
  | cons r rs ih =>
    intro t
    rw [List.foldl_cons, ih, bucketOf_tallyRecord]
    by_cases hbk : browserKey r = b
    · by_cases hst : r.status = .passed <;>
        · simp only [hbk, reduceIte, bumpAcc, List.countP_cons, List.filter_cons,
            hst, List.map_cons, List.sum_cons, BrowserAcc.mk.injEq]
          refine ⟨?_, ?_, ?_, ?_⟩ <;> simp [hst] <;> omega
    · simp only [hbk, reduceIte, List.countP_cons, List.filter_cons, BrowserAcc.mk.injEq]
      refine ⟨?_, ?_, ?_, ?_⟩ <;> simp [hbk]


theorem bucketOf_init (b : BrowserType) : bucketOf initBrowserTally b = initBrowserAcc := by
  cases b <;> rfl

theorem bucket_fields (records : List TestExecutionRecord) (b : BrowserType) :
    bucketOf (records.foldl tallyRecord initBrowserTally) b =
      { passed := records.countP (fun r => decide (browserKey r = b ∧ r.status = .passed)),
        failed := records.countP (fun r => decide (browserKey r = b ∧ ¬ r.status = .passed)),
        totalDuration := ((records.filter (fun r => decide (browserKey r = b))).map
          TestExecutionRecord.duration).sum,
        count := records.countP (fun r => decide (browserKey r = b)) } := by
  rw [bucketOf_foldl records b initBrowserTally, bucketOf_init]
  simp only [initBrowserAcc, Nat.zero_add, zero_add]

theorem finalize_bucket_spec (records : List TestExecutionRecord) (b : BrowserType)
    (hpos : 0 < records.countP (fun r => decide (browserKey r = b))) :
    finalizeBrowser b (bucketOf (records.foldl tallyRecord initBrowserTally) b) =
      { browser := b,
        passed := records.countP (fun r => decide (browserKey r = b ∧ r.status = .passed)),
        failed := records.countP (fun r => decide (browserKey r = b ∧ ¬ r.status = .passed)),
        total := records.countP (fun r => decide (browserKey r = b)),
        avgDuration := jsRound
          ((((records.filter (fun r => decide (browserKey r = b))).map
              TestExecutionRecord.duration).sum : ℚ) /
            ((records.countP (fun r => decide (browserKey r = b)) : ℕ) : ℚ)),
        stability := jsRound
          (((records.countP (fun r => decide (browserKey r = b ∧ r.status = .passed)) : ℚ) /
              ((records.countP (fun r => decide (browserKey r = b)) : ℕ) : ℚ)) * 100) } := by
  rw [bucket_fields records b]
  simp only [finalizeBrowser, hpos, if_pos, BrowserStats.mk.injEq, true_and]
  constructor
  · rw [jsRoundDiv_eq _ _ hpos]
  · rw [jsRoundDiv_eq _ _ hpos]
    congr 1
    push_cast
    ring

/-- C6: every emitted browser-stats entry belongs to a browser with at
least one record in the window; its `total` is that browser's record
count, `passed`/`failed` the two-way split of those records,
`stability = round(passed/total * 100)` and `avgDuration` the rounded mean
of those records' durations. -/
theorem browser_stats_correct :
    ∀ (records : List TestExecutionRecord) (bs : BrowserStats),
      bs ∈ calculateBrowserStats records →
      0 < bs.total ∧
      bs.total = records.countP (fun r => decide (browserKey r = bs.browser)) ∧
      bs.passed = records.countP (fun r => decide (browserKey r = bs.browser ∧ r.status = .passed)) ∧
      bs.failed = records.countP (fun r => decide (browserKey r = bs.browser ∧ ¬ r.status = .passed)) ∧
      bs.stability = jsRound (((bs.passed : ℚ) / (bs.total : ℚ)) * 100) ∧
      bs.avgDuration = jsRound
        ((((records.filter (fun r => decide (browserKey r = bs.browser))).map
            TestExecutionRecord.duration).sum : ℚ) / (bs.total : ℚ)) := by
  intro records bs hbs
  simp only [calculateBrowserStats, List.map_cons, List.map_nil] at hbs
  rw [List.mem_map] at hbs
  obtain ⟨p, hp, heq⟩ := hbs
  rw [List.mem_filter] at hp
  obtain ⟨hmem, hposb⟩ := hp
  have hmain : ∀ b : BrowserType,
      p = (b, bucketOf (records.foldl tallyRecord initBrowserTally) b) →
      0 < bs.total ∧
      bs.total = records.countP (fun r => decide (browserKey r = bs.browser)) ∧
      bs.passed = records.countP (fun r => decide (browserKey r = bs.browser ∧ r.status = .passed)) ∧
      bs.failed = records.countP (fun r => decide (browserKey r = bs.browser ∧ ¬ r.status = .passed)) ∧
      bs.stability = jsRound (((bs.passed : ℚ) / (bs.total : ℚ)) * 100) ∧
      bs.avgDuration = jsRound
        ((((records.filter (fun r => decide (browserKey r = bs.browser))).map
            TestExecutionRecord.duration).sum : ℚ) / (bs.total : ℚ)) := by
    intro b hpb
    subst hpb
    have hcnt : 0 < records.countP (fun r => decide (browserKey r = b)) := by
      have h2 := of_decide_eq_true hposb
      rwa [bucket_fields records b] at h2
    rw [finalize_bucket_spec records b hcnt] at heq
    subst heq
    exact ⟨hcnt, rfl, rfl, rfl, rfl, rfl⟩
  simp only [List.mem_cons, List.not_mem_nil, or_false] at hmem
  rcases hmem with h | h | h
  · exact hmain .chromium h
  · exact hmain .firefox h
  · exact hmain .webkit h

/-- C6 witness: the 8-passed/2-failed chromium window yields the entry
with stability 80 and avgDuration 140, and the theorem applies to it. -/
theorem browser_stats_correct_witness :
    exStats ∈ calculateBrowserStats exWindow ∧
    (0 < exStats.total ∧
      exStats.total = exWindow.countP (fun r => decide (browserKey r = exStats.browser)) ∧
      exStats.passed = exWindow.countP
        (fun r => decide (browserKey r = exStats.browser ∧ r.status = .passed)) ∧
      exStats.failed = exWindow.countP
        (fun r => decide (browserKey r = exStats.browser ∧ ¬ r.status = .passed)) ∧
      exStats.stability = jsRound (((exStats.passed : ℚ) / (exStats.total : ℚ)) * 100) ∧
      exStats.avgDuration = jsRound
        ((((exWindow.filter (fun r => decide (browserKey r = exStats.browser))).map
            TestExecutionRecord.duration).sum : ℚ) / (exStats.total : ℚ))) :=
  ⟨by decide, browser_stats_correct exWindow exStats (by decide)⟩

theorem tallyRecord_normalize (t : BrowserTally) (r : TestExecutionRecord) :
    tallyRecord t (normalizeBrowser r) = tallyRecord t r := by
  have hbk : browserKey (normalizeBrowser r) = browserKey r := by
    cases hb : r.browser <;> simp [normalizeBrowser, browserKey, hb]
  have hbump : ∀ a : BrowserAcc, bumpAcc a (normalizeBrowser r) = bumpAcc a r := fun a => rfl
  rw [tallyRecord, tallyRecord, hbk]
  cases browserKey r <;> simp only [hbump]

/-- C10: a record with a missing/empty browser field is keyed to chromium;
the whole statistics computation is unchanged by materializing that
fallback into the records, and the chromium bucket's count is the number
of records whose key (after the fallback) is chromium — such records are
tallied there, never dropped. -/
theorem browser_fallback_chromium :
    ∀ (records : List TestExecutionRecord) (r : TestExecutionRecord),
      (r.browser = none → browserKey r = .chromium) ∧
      calculateBrowserStats records = calculateBrowserStats (records.map normalizeBrowser) ∧
      (records.foldl tallyRecord initBrowserTally).chromium.count =
        records.countP (fun r' => decide (browserKey r' = .chromium)) := by
  intro records r
  refine ⟨?_, ?_, ?_⟩
  · intro h
    simp [browserKey, h]
  · have hfold : records.foldl tallyRecord initBrowserTally =
        (records.map normalizeBrowser).foldl tallyRecord initBrowserTally := by
      rw [List.foldl_map]
      congr 1
    simp only [calculateBrowserStats, hfold]
  · have hchar := bucket_fields records .chromium
    have hproj : bucketOf (records.foldl tallyRecord initBrowserTally) .chromium =
        (records.foldl tallyRecord initBrowserTally).chromium := rfl
    rw [hproj] at hchar
    rw [hchar]

/-- C10 witness: the legacy record without a browser is keyed to chromium
and counted there. -/
theorem browser_fallback_chromium_witness :
    (exRecD.browser = none ∧ browserKey exRecD = .chromium) ∧
    ([exRecD].foldl tallyRecord initBrowserTally).chromium.count =
      [exRecD].countP (fun r' => decide (browserKey r' = .chromium)) :=
  ⟨⟨by decide, (browser_fallback_chromium [exRecD] exRecD).1 (by decide)⟩,
    (browser_fallback_chromium [exRecD] exRecD).2.2⟩

theorem findGroup_insert_self (r : TestExecutionRecord) :
    ∀ acc : List (String × RunGroup),
      findGroup (insertRecord acc r) (groupKey r) =
        some (accRecord ((findGroup acc (groupKey r)).getD (newGroup (groupKey r) r)) r) := by
  intro acc
  induction acc with
  | nil => simp [insertRecord, findGroup]
  | cons p rest ih =>
    obtain ⟨k, g⟩ := p
    by_cases hk : k = groupKey r
    · subst hk
      simp [insertRecord, findGroup]
    · simp [insertRecord, findGroup, hk, ih]

theorem findGroup_insert_other (r : TestExecutionRecord) (k : String)
    (hk : k ≠ groupKey r) :
    ∀ acc : List (String × RunGroup),
      findGroup (insertRecord acc r) k = findGroup acc k := by
  intro acc
  have hne : ¬ groupKey r = k := fun h => hk h.symm
  induction acc with
  | nil => simp [insertRecord, findGroup, hne]
  | cons p rest ih =>
    obtain ⟨q, g⟩ := p
    by_cases hq : q = groupKey r
    · subst hq
      simp [insertRecord, findGroup, hne]
    · simp [insertRecord, findGroup, hq, ih]

theorem resultsAt_foldl (history : List TestExecutionRecord) :
    ∀ (acc : List (String × RunGroup)) (k : String),
      resultsAt (history.foldl insertRecord acc) k =
        resultsAt acc k ++ history.filter (fun r => decide (groupKey r = k)) := by
  induction history with
  | nil => intro acc k; simp
  | cons r hs ih =>
    intro acc k
    rw [List.foldl_cons, ih]
    by_cases hk : groupKey r = k
    · subst hk
      rw [List.filter_cons]
      simp only [decide_eq_true_eq, if_pos rfl]
      have hres : resultsAt (insertRecord acc r) (groupKey r) =
          resultsAt acc (groupKey r) ++ [r] := by
        rw [resultsAt, findGroup_insert_self r acc]
        cases hfg : findGroup acc (groupKey r) with
        | none => simp [resultsAt, hfg, accRecord, newGroup]
        | some g => simp [resultsAt, hfg, accRecord]
      rw [hres, List.append_assoc]
      rfl
    · rw [List.filter_cons]
      simp only [decide_eq_true_eq, hk, if_neg, if_false]
      rw [resultsAt, findGroup_insert_other r k (fun h => hk h.symm) acc]
      rfl

theorem findGroup_eq_none_iff (k : String) :
    ∀ acc : List (String × RunGroup),
      findGroup acc k = none ↔ k ∉ acc.map Prod.fst := by
  intro acc
  induction acc with
  | nil => simp [findGroup]
  | cons p rest ih =>
    obtain ⟨q, g⟩ := p
    by_cases hq : q = k
    · subst hq
      simp [findGroup]
    · rw [findGroup, if_neg hq]
      simp only [List.map_cons, List.mem_cons]
      rw [ih]
      constructor
      · intro h hmem
        rcases hmem with h1 | h1
        · exact hq h1.symm
        · exact h h1
      · intro h hmem
        exact h (Or.inr hmem)

theorem keys_insert (r : TestExecutionRecord) :
    ∀ acc : List (String × RunGroup),
      (insertRecord acc r).map Prod.fst =
        if (findGroup acc (groupKey r)).isSome then acc.map Prod.fst
        else acc.map Prod.fst ++ [groupKey r] := by
  intro acc
  induction acc with
  | nil => simp [insertRecord, findGroup]
  | cons p rest ih =>
    obtain ⟨q, g⟩ := p
    by_cases hq : q = groupKey r
    · subst hq
      simp [insertRecord, findGroup]
    · rw [insertRecord.eq_def]
      simp only [if_neg hq, List.map_cons]
      rw [ih, findGroup, if_neg hq]
      by_cases hs : (findGroup rest (groupKey r)).isSome
      · simp [hs]
      · simp [hs]

theorem keys_nodup (history : List TestExecutionRecord) :
    ∀ acc : List (String × RunGroup),
      (acc.map Prod.fst).Nodup →
      ((history.foldl insertRecord acc).map Prod.fst).Nodup := by
  induction history with
  | nil => intro acc h; simpa using h
  | cons r hs ih =>
    intro acc h
    rw [List.foldl_cons]
    apply ih
    rw [keys_insert]
    by_cases hfg : (findGroup acc (groupKey r)).isSome
    · simpa [hfg] using h
    · have hnotin : groupKey r ∉ acc.map Prod.fst := by
        rw [← findGroup_eq_none_iff]
        exact Option.not_isSome_iff_eq_none.mp hfg
      simp [hfg, List.nodup_append, h, hnotin]

theorem findGroup_mem (k : String) (g : RunGroup) :
    ∀ acc : List (String × RunGroup), findGroup acc k = some g → (k, g) ∈ acc := by
  intro acc
  induction acc with
  | nil => intro h; simp [findGroup] at h
  | cons p rest ih =>
    obtain ⟨q, g'⟩ := p
    by_cases hq : q = k
    · subst hq
      intro h
      rw [findGroup, if_pos rfl] at h
      simp at h
      simp [h]
    · intro h
      rw [findGroup, if_neg hq] at h
      exact List.mem_cons_of_mem _ (ih h)

theorem insert_group_inv (r : TestExecutionRecord) :
    ∀ acc : List (String × RunGroup),
      (∀ p ∈ acc,
        p.2.results ≠ [] ∧
        p.2.passed = p.2.results.countP (fun x => decide (x.status = .passed)) ∧
        p.2.failed = p.2.results.countP (fun x => decide (¬ x.status = .passed))) →
      ∀ p ∈ insertRecord acc r,
        p.2.results ≠ [] ∧
        p.2.passed = p.2.results.countP (fun x => decide (x.status = .passed)) ∧
        p.2.failed = p.2.results.countP (fun x => decide (¬ x.status = .passed)) := by
  have hacc : ∀ g : RunGroup,
      g.passed = g.results.countP (fun x => decide (x.status = .passed)) →
      g.failed = g.results.countP (fun x => decide (¬ x.status = .passed)) →
      (accRecord g r).results ≠ [] ∧
      (accRecord g r).passed = (accRecord g r).results.countP (fun x => decide (x.status = .passed)) ∧
      (accRecord g r).failed = (accRecord g r).results.countP (fun x => decide (¬ x.status = .passed)) := by
    intro g h1 h2
    refine ⟨by simp [accRecord], ?_, ?_⟩ <;>
      by_cases hst : r.status = .passed <;>
        simp [accRecord, List.countP_append, hst, h1, h2]
  intro acc
  induction acc with
  | nil =>
    intro _ p hp
    rw [insertRecord] at hp
    simp only [List.mem_singleton] at hp
    subst hp
    exact hacc (newGroup (groupKey r) r) (by simp [newGroup]) (by simp [newGroup])
  | cons q rest ih =>
    intro hinv p hp
    obtain ⟨k, g⟩ := q
    by_cases hk : k = groupKey r
    · subst hk
      rw [insertRecord, if_pos rfl] at hp
      rcases List.mem_cons.mp hp with hp | hp
      · subst hp
        have h0 := hinv (groupKey r, g) (List.mem_cons_self _ _)
        exact hacc g h0.2.1 h0.2.2
      · exact hinv p (List.mem_cons_of_mem _ hp)
    · rw [insertRecord, if_neg hk] at hp
      rcases List.mem_cons.mp hp with hp | hp
      · subst hp
        exact hinv (k, g) (List.mem_cons_self _ _)
      · exact ih (fun q hq => hinv q (List.mem_cons_of_mem _ hq)) p hp

theorem groupRuns_inv (history : List TestExecutionRecord) :
    ∀ p ∈ groupRuns history,
      p.2.results ≠ [] ∧
      p.2.passed = p.2.results.countP (fun x => decide (x.status = .passed)) ∧
      p.2.failed = p.2.results.countP (fun x => decide (¬ x.status = .passed)) := by
  have main : ∀ (hs : List TestExecutionRecord) (acc : List (String × RunGroup)),
      (∀ p ∈ acc,
        p.2.results ≠ [] ∧
        p.2.passed = p.2.results.countP (fun x => decide (x.status = .passed)) ∧
        p.2.failed = p.2.results.countP (fun x => decide (¬ x.status = .passed))) →
      ∀ p ∈ hs.foldl insertRecord acc,
        p.2.results ≠ [] ∧
        p.2.passed = p.2.results.countP (fun x => decide (x.status = .passed)) ∧
        p.2.failed = p.2.results.countP (fun x => decide (¬ x.status = .passed)) := by
    intro hs
    induction hs with
    | nil => intro acc h; simpa using h
    | cons r tl ih =>
      intro acc h
      rw [List.foldl_cons]
      exact ih _ (insert_group_inv r acc h)
  exact main history [] (by simp)

theorem sumLen_insert (r : TestExecutionRecord) :
    ∀ acc : List (String × RunGroup),
      ((insertRecord acc r).map (fun p => p.2.results.length)).sum =
        (acc.map (fun p => p.2.results.length)).sum + 1 := by
  intro acc
  induction acc with
  | nil => simp [insertRecord, accRecord, newGroup]
  | cons p rest ih =>
    obtain ⟨q, g⟩ := p
    by_cases hq : q = groupKey r
    · subst hq
      simp [insertRecord, accRecord]
      omega
    · simp only [insertRecord, hq, reduceIte, List.map_cons, List.sum_cons, ih]
      omega

theorem sumLen_groupRuns (history : List TestExecutionRecord) :
    ((groupRuns history).map (fun p => p.2.results.length)).sum = history.length := by
  have main : ∀ (hs : List TestExecutionRecord) (acc : List (String × RunGroup)),
      ((hs.foldl insertRecord acc).map (fun p => p.2.results.length)).sum =
        (acc.map (fun p => p.2.results.length)).sum + hs.length := by
    intro hs
    induction hs with
    | nil => intro acc; simp
    | cons r tl ih =>
      intro acc
      rw [List.foldl_cons, ih, sumLen_insert]
      simp only [List.length_cons]
      omega
  simpa using main history []

/-- C2: the grouping fold partitions the history exactly by `groupKey`
(the record's runId, or the LEGACY-RUN sentinel when it is absent): the
results stored under any key are precisely the records with that key in
encounter order — so each group's results length is the number of input
records with its key — keys are never duplicated and the group sizes sum
to the history length (each record lands in exactly one group), every
record is a member of the group at its own key, and a record without a
runId is keyed to the sentinel — never dropped. -/
theorem grouping_partition :
    ∀ (history : List TestExecutionRecord) (k : String) (r : TestExecutionRecord),
      resultsAt (groupRuns history) k =
        history.filter (fun x => decide (groupKey x = k)) ∧
      ((groupRuns history).map Prod.fst).Nodup ∧
      (r.runId = none → groupKey r = "LEGACY-RUN") ∧
      (∀ g : RunGroup, findGroup (groupRuns history) k = some g →
        g.results = history.filter (fun x => decide (groupKey x = k))) ∧
      (findGroup (groupRuns history) k = none →
        history.filter (fun x => decide (groupKey x = k)) = []) ∧
      (∀ g : RunGroup, findGroup (groupRuns history) k = some g →
        g.results.length =
          (history.filter (fun x => decide (groupKey x = k))).length) ∧
      (∀ x ∈ history, x ∈ resultsAt (groupRuns history) (groupKey x)) ∧
      ((groupRuns history).map (fun p => p.2.results.length)).sum = history.length := by
  intro history k r
  have hresAll : ∀ q : String, resultsAt (groupRuns history) q =
      history.filter (fun x => decide (groupKey x = q)) := by
    intro q
    rw [groupRuns, resultsAt_foldl history [] q]
    rfl
  have hres := hresAll k
  refine ⟨hres, keys_nodup history [] (by simp), ?_, ?_, ?_, ?_, ?_,
    sumLen_groupRuns history⟩
  · intro h
    simp [groupKey, h]
  · intro g hg
    rw [← hres, resultsAt, hg]
  · intro hg
    rw [← hres, resultsAt, hg]
  · intro g hg
    have hD : g.results = history.filter (fun x => decide (groupKey x = k)) := by
      rw [← hres, resultsAt, hg]
    rw [hD]
  · intro x hx
    rw [hresAll (groupKey x)]
    simp [List.mem_filter, hx]

/-- C2 witness: instantiating the grouping theorem on the mixed example
history at the sentinel key, with the legacy record. -/
theorem grouping_partition_witness :
    (exRecD.runId = none ∧ groupKey exRecD = "LEGACY-RUN") ∧
    resultsAt (groupRuns exHistory) "LEGACY-RUN" =
      exHistory.filter (fun x => decide (groupKey x = "LEGACY-RUN")) ∧
    ((groupRuns exHistory).map Prod.fst).Nodup ∧
    exRecD ∈ resultsAt (groupRuns exHistory) (groupKey exRecD) ∧
    ((groupRuns exHistory).map (fun p => p.2.results.length)).sum = exHistory.length :=
  ⟨⟨by decide, (grouping_partition exHistory "LEGACY-RUN" exRecD).2.2.1 (by decide)⟩,
    (grouping_partition exHistory "LEGACY-RUN" exRecD).1,
    (grouping_partition exHistory "LEGACY-RUN" exRecD).2.1,
    (grouping_partition exHistory "LEGACY-RUN" exRecD).2.2.2.2.2.2.1 exRecD (by decide),
    (grouping_partition exHistory "LEGACY-RUN" exRecD).2.2.2.2.2.2.2⟩

theorem countP_split_two (l : List TestExecutionRecord) :
    l.countP (fun x => decide (x.status = .passed)) +
      l.countP (fun x => decide (¬ x.status = .passed)) = l.length := by
  induction l with
  | nil => simp
  | cons x xs ih =>
    simp only [decide_not] at ih ⊢
    by_cases hst : x.status = .passed <;>
      simp [List.countP_cons, hst] <;> omega

theorem countP_split_three (l : List TestExecutionRecord) :
    l.countP (fun x => decide (x.status = .passed)) +
      l.countP (fun x => decide (x.status ≠ .passed ∧ x.status ≠ .skipped)) +
      l.countP (fun x => decide (x.status = .skipped)) = l.length := by
  induction l with
  | nil => simp
  | cons x xs ih =>
    simp only [ne_eq, decide_not, Bool.decide_and] at ih ⊢
    cases hst : x.status <;> simp [List.countP_cons, hst] <;> omega

theorem tallyResult_foldl (rs : List TestExecutionRecord) :
    ∀ a : ModeAcc,
      rs.foldl tallyResult a =
        { totalDuration := a.totalDuration + (rs.map TestExecutionRecord.duration).sum,
          totalTests := a.totalTests + rs.length,
          passed := a.passed + rs.countP (fun x => decide (x.status = .passed)),
          failed := a.failed + rs.countP (fun x => decide (x.status ≠ .passed ∧ x.status ≠ .skipped)),
          skipped := a.skipped + rs.countP (fun x => decide (x.status = .skipped)),
          totalWallClockTime := a.totalWallClockTime } := by
  induction rs with
  | nil =>
    intro a
    simp only [List.foldl_nil, List.map_nil, List.sum_nil, List.countP_nil,
      List.length_nil, add_zero]
  | cons x xs ih =>
    intro a
    rw [List.foldl_cons, ih]
    simp only [tallyResult, List.countP_cons, List.map_cons, List.sum_cons,
      List.length_cons, ne_eq, decide_not, Bool.decide_and]
    rw [ModeAcc.mk.injEq]
    cases hst : x.status <;>
      · simp only [hst]
        refine ⟨?_, ?_, ?_, ?_, ?_, ?_⟩ <;>
          first | trivial | omega | (simp; omega) | simp

theorem tallyRun_foldl (runs : List RunGroup) :
    ∀ a : ModeAcc,
      runs.foldl tallyRun a =
        { totalDuration := a.totalDuration +
            ((allResults runs).map TestExecutionRecord.duration).sum,
          totalTests := a.totalTests + (allResults runs).length,
          passed := a.passed + (allResults runs).countP (fun x => decide (x.status = .passed)),
          failed := a.failed +
            (allResults runs).countP (fun x => decide (x.status ≠ .passed ∧ x.status ≠ .skipped)),
          skipped := a.skipped + (allResults runs).countP (fun x => decide (x.status = .skipped)),
          totalWallClockTime :=
            runs.foldl (fun w g => optAdd w g.wallClockTime) a.totalWallClockTime } := by
  induction runs with
  | nil =>
    intro a
    simp only [List.foldl_nil, allResults, List.map_nil, List.flatten_nil, List.sum_nil,
      List.countP_nil, List.length_nil, add_zero]
  | cons g gs ih =>
    intro a
    rw [List.foldl_cons, tallyRun, tallyResult_foldl, ih, List.foldl_cons]
    have hall : allResults (g :: gs) = g.results ++ allResults gs := by
      simp [allResults]
    simp only [hall, List.countP_append, List.map_append, List.sum_append,
      List.length_append, ne_eq, decide_not, Bool.decide_and]
    rw [ModeAcc.mk.injEq]
    refine ⟨?_, ?_, ?_, ?_, ?_, ?_⟩ <;> first | trivial | omega | (simp; omega) | simp

/-- C3: at group accumulation the split is two-way — `passed` counts
status `passed`, `failed` counts every other status including `skipped` —
so `passed + failed` equals the results length; in the execution-mode
metrics the same records get the three-way split (`passed`/`skipped`/else
`failed`), so `passed + failed + skipped` equals `totalTests`. -/
theorem coarse_and_threeway_counts :
    ∀ (history : List TestExecutionRecord) (k : String) (g : RunGroup)
      (runList : List RunGroup) (mode : String),
      (findGroup (groupRuns history) k = some g →
        g.passed = g.results.countP (fun x => decide (x.status = .passed)) ∧
        g.failed = g.results.countP (fun x => decide (¬ x.status = .passed)) ∧
        g.passed + g.failed = g.results.length) ∧
      ((calcMetrics runList mode).passed =
          (allResults runList).countP (fun x => decide (x.status = .passed)) ∧
        (calcMetrics runList mode).skipped =
          (allResults runList).countP (fun x => decide (x.status = .skipped)) ∧
        (calcMetrics runList mode).failed =
          (allResults runList).countP (fun x => decide (x.status ≠ .passed ∧ x.status ≠ .skipped)) ∧
        (calcMetrics runList mode).totalTests = (allResults runList).length ∧
        (calcMetrics runList mode).passed + (calcMetrics runList mode).failed +
          (calcMetrics runList mode).skipped = (calcMetrics runList mode).totalTests) := by
  intro history k g runList mode
  constructor
  · intro hg
    have hinv := groupRuns_inv history (k, g) (findGroup_mem k g _ hg)
    refine ⟨hinv.2.1, hinv.2.2, ?_⟩
    rw [hinv.2.1, hinv.2.2]
    exact countP_split_two g.results
  · by_cases hlen : runList.length = 0
    · have hnil : runList = [] := List.length_eq_zero.mp hlen
      subst hnil
      simp [calcMetrics, allResults]
    · have hchar := tallyRun_foldl runList initModeAcc
      have hp : (calcMetrics runList mode).passed =
          (allResults runList).countP (fun x => decide (x.status = .passed)) := by
        rw [calcMetrics, if_neg hlen]
        simp only [hchar]
        simp [initModeAcc]
      have hs : (calcMetrics runList mode).skipped =
          (allResults runList).countP (fun x => decide (x.status = .skipped)) := by
        rw [calcMetrics, if_neg hlen]
        simp only [hchar]
        simp [initModeAcc]
      have hf : (calcMetrics runList mode).failed =
          (allResults runList).countP
            (fun x => decide (x.status ≠ .passed ∧ x.status ≠ .skipped)) := by
        rw [calcMetrics, if_neg hlen]
        simp only [hchar]
        simp [initModeAcc]
      have ht : (calcMetrics runList mode).totalTests = (allResults runList).length := by
        rw [calcMetrics, if_neg hlen]
        simp only [hchar]
        simp [initModeAcc]
      refine ⟨hp, hs, hf, ht, ?_⟩
      rw [hp, hs, hf, ht]
      exact countP_split_three (allResults runList)

/-- C3 witness: the RUN-1 group of the example history (two passed, one
failed) and the metrics over that single group satisfy both splits. -/
theorem coarse_and_threeway_counts_witness :
    findGroup (groupRuns exHistory) "RUN-1" = some exGroupRaw ∧
    (exGroupRaw.passed = exGroupRaw.results.countP (fun x => decide (x.status = .passed)) ∧
      exGroupRaw.failed = exGroupRaw.results.countP (fun x => decide (¬ x.status = .passed)) ∧
      exGroupRaw.passed + exGroupRaw.failed = exGroupRaw.results.length) ∧
    (calcMetrics [exGroupRaw] "Parallel").passed + (calcMetrics [exGroupRaw] "Parallel").failed +
      (calcMetrics [exGroupRaw] "Parallel").skipped =
      (calcMetrics [exGroupRaw] "Parallel").totalTests :=
  ⟨by decide,
    (coarse_and_threeway_counts exHistory "RUN-1" exGroupRaw [exGroupRaw] "Parallel").1
      (by decide),
    (coarse_and_threeway_counts exHistory "RUN-1" exGroupRaw [exGroupRaw] "Parallel").2.2.2.2.2⟩

theorem jsMaxList_spec :
    ∀ l : List (Option Int), l ≠ [] → (∀ x ∈ l, x.isSome) →
      ∃ e : Int, jsMaxList l = some e ∧ some e ∈ l ∧ ∀ a : Int, some a ∈ l → a ≤ e := by
  intro l
  induction l with
  | nil => intro h; exact absurd rfl h
  | cons x xs ih =>
    intro _ hsome
    cases xs with
    | nil =>
      have hx := hsome x (by simp)
      cases x with
      | none => simp at hx
      | some a =>
        refine ⟨a, rfl, by simp, ?_⟩
        intro b hb
        simp at hb
        omega
    | cons y ys =>
      obtain ⟨e, he, hmem, hbound⟩ :=
        ih (by simp) (fun z hz => hsome z (List.mem_cons_of_mem _ hz))
      have hx := hsome x (by simp)
      cases x with
      | none => simp at hx
      | some a =>
        refine ⟨max a e, ?_, ?_, ?_⟩
        · simp [jsMaxList, optMax2, he]
        · rcases max_choice a e with h | h
          · rw [h]; simp
          · rw [h]; exact List.mem_cons_of_mem _ hmem
        · intro b hb
          rcases List.mem_cons.mp hb with hb | hb
          · have hba : b = a := by simpa using hb
            subst hba
            exact le_max_left b e
          · exact le_trans (hbound b hb) (le_max_right a e)

theorem jsMinList_spec :
    ∀ l : List (Option Int), l ≠ [] → (∀ x ∈ l, x.isSome) →
      ∃ s : Int, jsMinList l = some s ∧ some s ∈ l ∧ ∀ a : Int, some a ∈ l → s ≤ a := by
  intro l
  induction l with
  | nil => intro h; exact absurd rfl h
  | cons x xs ih =>
    intro _ hsome
    cases xs with
    | nil =>
      have hx := hsome x (by simp)
      cases x with
      | none => simp at hx
      | some a =>
        refine ⟨a, rfl, by simp, ?_⟩
        intro b hb
        simp at hb
        omega
    | cons y ys =>
      obtain ⟨s, hs, hmem, hbound⟩ :=
        ih (by simp) (fun z hz => hsome z (List.mem_cons_of_mem _ hz))
      have hx := hsome x (by simp)
      cases x with
      | none => simp at hx
      | some a =>
        refine ⟨min a s, ?_, ?_, ?_⟩
        · simp [jsMinList, optMin2, hs]
        · rcases min_choice a s with h | h
          · rw [h]; simp
          · rw [h]; exact List.mem_cons_of_mem _ hmem
        · intro b hb
          rcases List.mem_cons.mp hb with hb | hb
          · have hba : b = a := by simpa using hb
            subst hba
            exact min_le_left b s
          · exact le_trans (min_le_right a s) (hbound b hb)

theorem findGroup_map_finalize (k : String) :
    ∀ l : List (String × RunGroup),
      findGroup (l.map (fun p => (p.1, finalizeGroup p.2))) k =
        (findGroup l k).map finalizeGroup := by
  intro l
  induction l with
  | nil => simp [findGroup]
  | cons p rest ih =>
    obtain ⟨q, g⟩ := p
    by_cases hq : q = k
    · subst hq
      simp [findGroup]
    · simp [findGroup, hq, ih]

/-- C1: for every group produced by the aggregation pass whose timestamps
all parse, `wallClockTime` is exactly the attained maximum of
`timestamp + duration` minus the attained minimum of `timestamp` over the
group's records, and is therefore at least every single record's
duration. -/
theorem wallclock_max_minus_min :
    ∀ (history : List TestExecutionRecord) (k : String) (g : RunGroup),
      findGroup (aggregate history) k = some g →
      (∀ r ∈ g.results, (r.timestamp).isSome) →
      ∃ e s : Int,
        (∃ r ∈ g.results, r.timestamp.getD 0 + r.duration = e) ∧
        (∀ r ∈ g.results, r.timestamp.getD 0 + r.duration ≤ e) ∧
        (∃ r ∈ g.results, r.timestamp.getD 0 = s) ∧
        (∀ r ∈ g.results, s ≤ r.timestamp.getD 0) ∧
        g.wallClockTime = some (e - s) ∧
        (∀ r ∈ g.results, r.duration ≤ e - s) := by
  intro history k g hg hts
  rw [aggregate, findGroup_map_finalize] at hg
  cases hg0 : findGroup (groupRuns history) k with
  | none =>
    rw [hg0] at hg
    exact absurd hg (by simp)
  | some g0 =>
    rw [hg0] at hg
    have hmap : Option.map finalizeGroup (some g0) = some (finalizeGroup g0) := rfl
    rw [hmap] at hg
    have hgg : finalizeGroup g0 = g := Option.some.inj hg
    have hne : g0.results ≠ [] :=
      (groupRuns_inv history (k, g0) (findGroup_mem k g0 _ hg0)).1
    have hlen : 0 < g0.results.length := List.length_pos.mpr hne
    have hres : g.results = g0.results := by
      rw [← hgg]
      simp [finalizeGroup, hlen]
    have hmem0 : ∀ r ∈ g0.results, r ∈ g.results := fun r hr => by
      rw [hres]; exact hr
    have hendeq : ∀ r ∈ g0.results, endMs r = some (r.timestamp.getD 0 + r.duration) := by
      intro r hr
      have h1 := hts r (hmem0 r hr)
      cases hr' : r.timestamp with
      | none => rw [hr'] at h1; simp at h1
      | some t => simp [endMs, hr']
    have hstarteq : ∀ r ∈ g0.results, startMs r = some (r.timestamp.getD 0) := by
      intro r hr
      have h1 := hts r (hmem0 r hr)
      cases hr' : r.timestamp with
      | none => rw [hr'] at h1; simp at h1
      | some t => simp [startMs, hr']
    have hendnil : g0.results.map endMs ≠ [] := by simp [hne]
    have hstartnil : g0.results.map startMs ≠ [] := by simp [hne]
    have hendsome : ∀ x ∈ g0.results.map endMs, x.isSome := by
      intro x hx
      rw [List.mem_map] at hx
      obtain ⟨r, hr, rfl⟩ := hx
      rw [hendeq r hr]
      rfl
    have hstartsome : ∀ x ∈ g0.results.map startMs, x.isSome := by
      intro x hx
      rw [List.mem_map] at hx
      obtain ⟨r, hr, rfl⟩ := hx
      rw [hstarteq r hr]
      rfl
    obtain ⟨e, he, hemem, hebound⟩ := jsMaxList_spec (g0.results.map endMs) hendnil hendsome
    obtain ⟨s, hs, hsmem, hsbound⟩ := jsMinList_spec (g0.results.map startMs) hstartnil hstartsome
    have hebound' : ∀ r ∈ g0.results, r.timestamp.getD 0 + r.duration ≤ e := by
      intro r hr
      apply hebound
      rw [List.mem_map]
      exact ⟨r, hr, hendeq r hr⟩
    have hsbound' : ∀ r ∈ g0.results, s ≤ r.timestamp.getD 0 := by
      intro r hr
      apply hsbound
      rw [List.mem_map]
      exact ⟨r, hr, hstarteq r hr⟩
    have hwct : g.wallClockTime = some (e - s) := by
      rw [← hgg]
      simp only [finalizeGroup, hlen, if_pos]
      rw [he, hs]
    refine ⟨e, s, ?_, ?_, ?_, ?_, hwct, ?_⟩
    · rw [List.mem_map] at hemem
      obtain ⟨r, hr, hre⟩ := hemem
      rw [hendeq r hr] at hre
      exact ⟨r, hmem0 r hr, Option.some.inj hre⟩
    · intro r hr
      rw [hres] at hr
      exact hebound' r hr
    · rw [List.mem_map] at hsmem
      obtain ⟨r, hr, hrs⟩ := hsmem
      rw [hstarteq r hr] at hrs
      exact ⟨r, hmem0 r hr, Option.some.inj hrs⟩
    · intro r hr
      rw [hres] at hr
      exact hsbound' r hr
    · intro r hr
      rw [hres] at hr
      have h1 := hebound' r hr
      have h2 := hsbound' r hr
      omega

/-- C1 witness: the RUN-1 group of the example history (starts 0/1000/2000
ms, durations 100/150/200) has wall-clock time 2200 = (2000+200) − 0, and
the theorem applies to it. -/
theorem wallclock_max_minus_min_witness :
    findGroup (aggregate exHistory) "RUN-1" = some exGroup ∧
    (∀ r ∈ exGroup.results, (r.timestamp).isSome) ∧
    exGroup.wallClockTime = some 2200 ∧
    (∃ e s : Int,
      (∃ r ∈ exGroup.results, r.timestamp.getD 0 + r.duration = e) ∧
      (∀ r ∈ exGroup.results, r.timestamp.getD 0 + r.duration ≤ e) ∧
      (∃ r ∈ exGroup.results, r.timestamp.getD 0 = s) ∧
      (∀ r ∈ exGroup.results, s ≤ r.timestamp.getD 0) ∧
      exGroup.wallClockTime = some (e - s) ∧
      (∀ r ∈ exGroup.results, r.duration ≤ e - s)) :=
  ⟨by decide, by decide, by decide,
    wallclock_max_minus_min exHistory "RUN-1" exGroup (by decide) (by decide)⟩

theorem altCounts_changes : ∀ k : Nat, altCounts ((k + 1) * 50) ≠ altCounts (k * 50) := by
  intro k
  simp only [altCounts]
  omega

theorem stableCountGo_succ (counts : Nat → Nat) (T th p fuel now lastCount ss : Nat) :
    stableCountGo counts T th p (fuel + 1) now lastCount ss =
      if now < T then
        if counts (now + p) ≠ lastCount then
          stableCountGo counts T th p fuel (now + p) (counts (now + p)) (now + p)
        else if th ≤ now + p - ss then .stable (counts (now + p))
        else stableCountGo counts T th p fuel (now + p) lastCount ss
      else .timedOutLast lastCount := rfl

theorem const_counts_stable (T th p c : Nat) (hp : 0 < p) (hth : th ≤ T) :
    ∀ fuel now, th ≤ now + (fuel + 1) * p → now < T →
      stableCountGo (fun _ => c) T th p (fuel + 1) now c 0 = .stable c := by
  intro fuel
  induction fuel with
  | zero =>
    intro now h1 h2
    have h1' : th ≤ now + p := by
      have hmul : (0 + 1) * p = p := by ring
      omega
    rw [stableCountGo_succ, if_pos h2, if_neg (fun h => h rfl), Nat.sub_zero, if_pos h1']
  | succ fuel ih =>
    intro now h1 h2
    by_cases hq : th ≤ now + p
    · rw [stableCountGo_succ, if_pos h2, if_neg (fun h => h rfl), Nat.sub_zero, if_pos hq]
    · have h2' : now + p < T := by omega
      have h1' : th ≤ now + p + (fuel + 1) * p := by
        have hmul : (fuel + 1 + 1) * p = (fuel + 1) * p + p := by ring
        omega
      have hrec := ih (now + p) h1' h2'
      rw [stableCountGo_succ, if_pos h2, if_neg (fun h => h rfl), Nat.sub_zero, if_neg hq]
      exact hrec

theorem changing_counts_timeout (counts : Nat → Nat) (T th p : Nat)
    (hc : ∀ k, counts ((k + 1) * p) ≠ counts (k * p)) :
    ∀ fuel k ss, ∃ m, stableCountGo counts T th p fuel (k * p) (counts (k * p)) ss =
      .timedOutLast (counts (m * p)) := by
  intro fuel
  induction fuel with
  | zero => intro k ss; exact ⟨k, rfl⟩
  | succ fuel ih =>
    intro k ss
    by_cases hnow : k * p < T
    · have hmul : (k + 1) * p = k * p + p := by ring
      have hne : counts (k * p + p) ≠ counts (k * p) := by
        have := hc k
        rwa [hmul] at this
      obtain ⟨m, hm⟩ := ih (k + 1) (k * p + p)
      rw [hmul] at hm
      refine ⟨m, ?_⟩
      rw [stableCountGo_succ, if_pos hnow, if_pos hne]
      exact hm
    · exact ⟨k, by rw [stableCountGo_succ, if_neg hnow]⟩

theorem stableCountSpecGo_succ (counts : Nat → Nat) (T th p fuel now lastCount ss : Nat) :
    stableCountSpecGo counts T th p (fuel + 1) now lastCount ss =
      if now < T then
        if counts (now + p) ≠ lastCount then
          stableCountSpecGo counts T th p fuel (now + p) (counts (now + p)) (now + p)
        else if th ≤ now + p - ss then .ok (counts (now + p))
        else stableCountSpecGo counts T th p fuel (now + p) lastCount ss
      else .error "timeout" := rfl

theorem go_agrees_with_spec (counts : Nat → Nat) (T th p : Nat) :
    ∀ fuel now lastCount ss,
      stableCountSpecGo counts T th p fuel now lastCount ss =
        (match stableCountGo counts T th p fuel now lastCount ss with
          | .stable n => SpecWaitOutcome.ok n
          | .timedOutLast _ => SpecWaitOutcome.error "timeout") := by
  intro fuel
  induction fuel with
  | zero => intro now lastCount ss; rfl
  | succ fuel ih =>
    intro now lastCount ss
    rw [stableCountSpecGo_succ, stableCountGo_succ]
    by_cases h1 : now < T
    · rw [if_pos h1, if_pos h1]
      by_cases h2 : counts (now + p) ≠ lastCount
      · rw [if_pos h2, if_pos h2]
        exact ih _ _ _
      · rw [if_neg h2, if_neg h2]
        by_cases h3 : th ≤ now + p - ss
        · rw [if_pos h3, if_pos h3]
        · rw [if_neg h3, if_neg h3]
          exact ih _ _ _
    · rw [if_neg h1, if_neg h1]

/-- C5 amended: for every count trajectory and every option combination,
the polling variant agrees with the claimed mutation-observer contract
(modelled from the spec in `waitForStableCountSpec`, same observation
grid) exactly on the resolution path — it resolves `stable n` precisely
when the claimed contract resolves with the same stable count `n` — and
precisely where the claimed contract fails with the timeout error the
variant instead resolves normally with the last observed count; in
particular a never-changing count resolves with that count under the
default options and a count changing at every poll ends in
`timedOutLast`. -/
theorem stable_count_contract_amended :
    (∀ (counts : Nat → Nat) (timeout threshold poll : Nat),
      (∀ n : Nat, waitForStableCount counts timeout threshold poll = .stable n ↔
        waitForStableCountSpec counts timeout threshold poll = .ok n) ∧
      ((∃ n, waitForStableCount counts timeout threshold poll = .timedOutLast n) ↔
        waitForStableCountSpec counts timeout threshold poll = .error "timeout")) ∧
    (∀ c : Nat, waitForStableCount (fun _ => c) defaultTimeout defaultStabilityThreshold
      defaultPollInterval = .stable c) ∧
    (∀ (counts : Nat → Nat) (timeout threshold poll : Nat),
      (∀ k, counts ((k + 1) * poll) ≠ counts (k * poll)) →
      ∃ m, waitForStableCount counts timeout threshold poll =
        .timedOutLast (counts (m * poll))) := by
  refine ⟨?_, ?_, ?_⟩
  · intro counts timeout threshold poll
    have hag : waitForStableCountSpec counts timeout threshold poll =
        (match waitForStableCount counts timeout threshold poll with
          | .stable n => SpecWaitOutcome.ok n
          | .timedOutLast _ => SpecWaitOutcome.error "timeout") :=
      go_agrees_with_spec counts timeout threshold poll (timeout + 1) 0 (counts 0) 0
    constructor
    · intro n
      constructor
      · intro h
        rw [hag, h]
      · intro h
        cases hq : waitForStableCount counts timeout threshold poll with
        | stable m =>
          rw [hag, hq] at h
          simp only [SpecWaitOutcome.ok.injEq] at h
          rw [h]
        | timedOutLast m =>
          rw [hag, hq] at h
          simp at h
    · constructor
      · rintro ⟨n, h⟩
        rw [hag, h]
      · intro h
        cases hq : waitForStableCount counts timeout threshold poll with
        | stable m =>
          rw [hag, hq] at h
          simp at h
        | timedOutLast m => exact ⟨m, rfl⟩
  · intro c
    simp only [waitForStableCount, defaultTimeout, defaultStabilityThreshold,
      defaultPollInterval]
    exact const_counts_stable 5000 100 50 c (by norm_num) (by norm_num) 5000 0
      (by norm_num) (by norm_num)
  · intro counts timeout threshold poll hc
    have h := changing_counts_timeout counts timeout threshold poll hc (timeout + 1) 0 0
    simpa [waitForStableCount] using h

/-- C5 counterexample: on a count that flips at every 50 ms poll, the code
returns normally with the last observed count after the 200 ms timeout,
while the claimed contract (the mutation-observer waiter's, modelled from
the spec) demands a timeout error at the same input. -/
theorem stable_count_timeout_no_error :
    waitForStableCount altCounts 200 100 50 = CountResult.timedOutLast 0 ∧
    waitForStableCountSpec altCounts 200 100 50 = SpecWaitOutcome.error "timeout" := by
  constructor <;> decide

/-- C5 witness: the agreement applied at the scenario-C-shaped count (one
change at 30 ms then silence: both resolve with stable count 1 under a
1000/100/50 configuration) and at the flipping count (the claimed
contract errors where the code returns the last count). -/
theorem stable_count_contract_amended_witness :
    waitForStableCountSpec oneChangeCounts 1000 100 50 = .ok 1 ∧
    waitForStableCount oneChangeCounts 1000 100 50 = .stable 1 ∧
    waitForStableCountSpec altCounts 200 100 50 = .error "timeout" :=
  ⟨((stable_count_contract_amended.1 oneChangeCounts 1000 100 50).1 1).mp (by decide),
    by decide,
    (stable_count_contract_amended.1 altCounts 200 100 50).2.mp ⟨0, by decide⟩⟩
